import Mathlib

/-!
TetraDeca: the interrupt-driven display scan of `main.c`

A shallow embedding of `ShiftOut` and of the interrupt handler `ISR` of
`TetraDeca.X/main.c` (PIC16F1705, XC8: `int` is 16 bits wide, `uint8_t`
stores keep the low 8 bits), followed by theorems about them.

The special function registers and the `static`/global variables the handler
touches are fields of `State`.  Every store to `LATA` or `LATC`, and every
entry into `ShiftOut`, is appended to `State.trace` in program order, so that
the serial protocol seen by the 74HC595 chain can be read back from the trace.
`NOP()` changes no register and stores nothing; it is the identity here.

The character map exists in the source as the comment table of lines 54-97
only; it is transcribed row by row as `characterMap`.
-/

namespace TetraDeca

/-! ## Machine integers -/

/-- Truncation of a value stored into a `uint8_t` object or 8-bit register. -/
def u8 (x : Nat) : Nat := x % 256

/-- Truncation of a value stored into a `uint16_t` object. -/
def u16 (x : Nat) : Nat := x % 65536

/-- The C operator `~` on a 16-bit `int`, as a bit pattern. -/
def cnot (x : Nat) : Nat := 65535 - x % 65536

/-! ## Pin masks (`#define`s of lines 141-147) -/

def BUTTON_c : Nat := 1 <<< 3
def SHIFT_LATCH_a : Nat := 1 <<< 4
def SHIFT_DATA_c : Nat := 1 <<< 4
def SHIFT_CLOCK_c : Nat := 1 <<< 5

/-! ## State and trace -/

/-- Observable events of the handler, in program order. -/
inductive Ev where
  /-- entry into `ShiftOut` with the (8-bit) argument `v` -/
  | call (v : Nat)
  /-- a store of `w` to `LATC` -/
  | latc (w : Nat)
  /-- a store of `w` to `LATA` -/
  | lata (w : Nat)
  deriving DecidableEq, Repr

/-- Registers, globals and the `static` locals of the handler. -/
structure State where
  LATA : Nat
  LATC : Nat
  PORTC : Nat
  T0IF : Bool
  tick : Nat
  button : Nat
  pattern : Nat
  disp : Nat
  lastButton : Nat
  localTick : Nat
  trace : List Ev
  deriving DecidableEq, Repr

/-- A store `LATC = w`. -/
def setLATC (w : Nat) (s : State) : State :=
  { s with LATC := u8 w, trace := s.trace ++ [Ev.latc (u8 w)] }

/-- A store `LATA = w`. -/
def setLATA (w : Nat) (s : State) : State :=
  { s with LATA := u8 w, trace := s.trace ++ [Ev.lata (u8 w)] }

/-! ## `ShiftOut` (lines 153-161) -/

/-- One pass through the body of the `for` loop of `ShiftOut`: returns the
halved `v` and the new state. -/
def ShiftOutBit (v : Nat) (s : State) : Nat × State :=
  let s1 := if v &&& 1 ≠ 0 then setLATC (s.LATC ||| SHIFT_DATA_c) s
            else setLATC (s.LATC &&& cnot SHIFT_DATA_c) s
  let v1 := u8 (v / 2)
  let s2 := setLATC (s1.LATC ||| SHIFT_CLOCK_c) s1
  -- NOP();
  let s3 := setLATC (s2.LATC &&& cnot SHIFT_CLOCK_c) s2
  (v1, s3)

/-- The loop `for (uint8_t i=0; i<8; i++)` with `n = 8 - i` passes left. -/
def ShiftOutLoop : Nat → Nat → State → State
  | 0, _, s => s
  | n + 1, v, s => ShiftOutLoop n (ShiftOutBit v s).1 (ShiftOutBit v s).2

/-- The function `void ShiftOut(uint8_t v)`: the argument is converted to
`uint8_t` at the call. -/
def ShiftOut (v : Nat) (s : State) : State :=
  ShiftOutLoop 8 (u8 v) { s with trace := s.trace ++ [Ev.call (u8 v)] }

/-! ## `ISR` (lines 210-263) -/

/-- Lines 215-222: the software tick. -/
def ISR_timer (s : State) : State :=
  if s.T0IF then
    let s1 := { s with T0IF := false }
    let old := s1.localTick
    let s2 := { s1 with localTick := u16 (old + 1) }
    if old > 49 then { s2 with localTick := 0, tick := u8 (s2.tick + 1) } else s2
  else s

/-- Lines 226-241 with the character code `ch` of line 224 as a parameter:
six bytes to the 74HC595 chain.  In `1<<disp` the operand is a 16-bit `int`;
the low 16 bits of the shifted value are kept (C leaves the shift undefined
for `disp ≥ 15`, which no run from power-on reaches). -/
def ISR_shift (ch : Nat) (s : State) : State :=
  let u := u8 (ch / 8)
  let b := u8 (1 <<< (ch &&& 7))
  let s := ShiftOut (if u = 0 then b else 0) s
  let s := ShiftOut (if u = 1 then b else 0) s
  let s := ShiftOut (if u = 2 then b else 0) s
  let s := ShiftOut (if u = 3 then b else 0) s
  let s := ShiftOut (if u = 4 then b else 0) s
  ShiftOut (cnot (1 <<< s.disp)) s

/-- Lines 243-246: the latch pulse. -/
def ISR_latch (s : State) : State :=
  -- NOP();
  let s := setLATA (s.LATA ||| SHIFT_LATCH_a) s
  -- NOP();
  setLATA (s.LATA &&& cnot SHIFT_LATCH_a) s

/-- Lines 252-261: the button sample and the advance of `disp`. -/
def ISR_button (s : State) : State :=
  let s1 := if s.PORTC &&& BUTTON_c = 0 then { s with lastButton := u8 (s.lastButton + 1) }
            else s
  let old := s1.disp
  let s2 := { s1 with disp := u8 (old + 1) }
  if old = 8 then { s2 with disp := 0, pattern := s2.lastButton } else s2

/-- The handler with the character code as a parameter. -/
def ISR_ch (ch : Nat) (s : State) : State :=
  ISR_button (ISR_latch (ISR_shift ch (ISR_timer s)))

/-- The handler `void interrupt ISR(void)`, `uint8_t ch=39;`. -/
def ISR (s : State) : State := ISR_ch 39 s

/-! ## Runs -/

/-- What the hardware presents at one interrupt: the level of port C and the
timer-overflow flag. -/
structure Input where
  portc : Nat
  t0if : Bool
  deriving DecidableEq, Repr

/-- One interrupt step: the inputs are sampled, the handler runs. -/
def interrupt (i : Input) (s : State) : State :=
  ISR { s with PORTC := u8 i.portc, T0IF := i.t0if }

/-- Consecutive interrupt steps, one per input. -/
def run : List Input → State → State
  | [], s => s
  | i :: is, s => run is (interrupt i s)

/-- The state when `main` enables interrupts: the initialisers of lines
149-151 and 211-213, and the latch and clock lines driven low (lines 186-187)
from whatever `LATA`, `LATC` held at reset. -/
def powerOn (lata latc : Nat) : State :=
  { LATA := u8 (u8 lata &&& cnot SHIFT_LATCH_a)
    LATC := u8 (u8 latc &&& cnot SHIFT_CLOCK_c)
    PORTC := 0xFF
    T0IF := false
    tick := 0
    button := 0xFF
    pattern := 0x18
    disp := 0
    lastButton := 0x01
    localTick := 0
    trace := [] }

/-! ## Reading the trace -/

/-- The values stored to `LATC`, in order. -/
def latcWrites : List Ev → List Nat
  | [] => []
  | Ev.latc w :: es => w :: latcWrites es
  | _ :: es => latcWrites es

/-- The arguments of the calls of `ShiftOut`, in order. -/
def calls : List Ev → List Nat
  | [] => []
  | Ev.call v :: es => v :: calls es
  | _ :: es => calls es

/-- The clock pulses in a sequence of `LATC` stores, each with the level of
the data line (bit 4) while the clock was high: a pulse is a store with the
clock bit (bit 5) set followed at once by a store with it clear. -/
def clockPulses : List Nat → List Bool
  | a :: b :: rest =>
    if a.testBit 5 && !b.testBit 5 then a.testBit 4 :: clockPulses (b :: rest)
    else clockPulses (b :: rest)
  | _ => []

/-- The rising edges of the clock line in a sequence of levels of `LATC`
(the level at entry, then the stores), each with the level of the data line
at the edge: an edge is a level with the clock bit clear followed at once by
one with it set. -/
def clockRises : List Nat → List Bool
  | a :: b :: rest =>
    if !a.testBit 5 && b.testBit 5 then b.testBit 4 :: clockRises (b :: rest)
    else clockRises (b :: rest)
  | _ => []

/-- The events a piece of code appended to the trace of `s`, given the state
`t` it ended in. -/
def emitted (s t : State) : List Ev := t.trace.drop s.trace.length

/-- The bits 0..7 of `v`, least significant first. -/
def lsbFirst (v : Nat) : List Bool := (List.range 8).map (fun i => v.testBit i)

/-- The state `t` is reached from `s` by calls of `ShiftOut` on `bytes`, in
order, and nothing else. -/
def Shifts (bytes : List Nat) (s t : State) : Prop :=
  ∃ es : List Ev,
    t = { s with LATC := (latcWrites es).getLastD s.LATC, trace := s.trace ++ es } ∧
    calls es = bytes.map u8 ∧
    (∀ w, Ev.lata w ∉ es) ∧
    clockPulses (s.LATC :: latcWrites es) = bytes.flatMap lsbFirst ∧
    clockPulses (latcWrites es) = bytes.flatMap lsbFirst ∧
    (bytes ≠ [] → t.LATC.testBit 5 = false)

/-- The five character-select bytes of lines 230-239 for the code `ch`. -/
def selBytes (ch : Nat) : List Nat :=
  [ if u8 (ch / 8) = 0 then u8 (1 <<< (ch &&& 7)) else 0,
    if u8 (ch / 8) = 1 then u8 (1 <<< (ch &&& 7)) else 0,
    if u8 (ch / 8) = 2 then u8 (1 <<< (ch &&& 7)) else 0,
    if u8 (ch / 8) = 3 then u8 (1 <<< (ch &&& 7)) else 0,
    if u8 (ch / 8) = 4 then u8 (1 <<< (ch &&& 7)) else 0 ]

/-- What the 74HC595 chain is told, read from the trace: a byte handed to
`ShiftOut`, or the level the latch line (bit 4 of `LATA`) is set to. -/
inductive Sig where
  | byte (v : Nat)
  | latch (level : Bool)
  deriving DecidableEq, Repr

/-- The bytes and latch levels of a trace, in order. -/
def view : List Ev → List Sig
  | [] => []
  | Ev.call v :: es => Sig.byte v :: view es
  | Ev.lata w :: es => Sig.latch (w.testBit 4) :: view es
  | Ev.latc _ :: es => view es

/-- The number of inputs at which the button line (bit 3 of port C) reads 0. -/
def presses : List Input → Nat
  | [] => 0
  | i :: is => (if u8 i.portc &&& BUTTON_c = 0 then 1 else 0) + presses is

/-! ## The character map (lines 54-97) -/

/-- The header of the character map (line 56): the names of the 14 segments,
in the order of the columns. -/
def segmentNames : List Char := "abcdefghijklmn".toList

/-- The character map of lines 58-97: row `c` is the line of code `c`, a
column holding the segment's letter when the segment is lit and `-` when it
is not. -/
def characterMap : List String :=
  [ "abc-e---i-klm-",  --  0 0
    "-bc-e---------",  --  1 1
    "a-cd-----jk-m-",  --  2 2
    "a-cde-------m-",  --  3 3
    "--cde---ij----",  --  4 4
    "a----f--ij--m-",  --  5 5
    "a--de---ijk-m-",  --  6 6
    "ab-----------n",  --  7 7
    "a-cde---ijk-m-",  --  8 8
    "a-cde---ij--m-",  --  9 9
    "--------------",  -- 10 sp
    "a-cde---ijk---",  -- 11 A
    "a-cde-g-----mn",  -- 12 B
    "a-------i-k-m-",  -- 13 C
    "a-c-e-g-----mn",  -- 14 D
    "a-------ijk-m-",  -- 15 E
    "a-------ijk---",  -- 16 F
    "a--de---i-k-m-",  -- 17 G
    "--cde---ijk---",  -- 18 H
    "a-----g-----mn",  -- 19 I
    "--c-e-----k-m-",  -- 20 J
    "-b---f--ijk---",  -- 21 K
    "--------i-k-m-",  -- 22 L
    "-bc-e--hi-k---",  -- 23 M
    "--c-ef-hi-k---",  -- 24 N
    "a-c-e---i-k-m-",  -- 25 O
    "a-cd----ijk---",  -- 26 P
    "a-c-ef--i-k-m-",  -- 27 Q
    "a-cd-f--ijk---",  -- 28 R
    "a--de---ij--m-",  -- 29 S
    "a-----g------n",  -- 30 T
    "--c-e---i-k-m-",  -- 31 U
    "-b------i-kl--",  -- 32 V
    "--c-ef--i-kl--",  -- 33 W
    "-b---f-h---l--",  -- 34 X
    "-b-----h-----n",  -- 35 Y
    "ab---------lm-",  -- 36 Z
    "---d-----j----",  -- 37 -
    "---d--g--j---n",  -- 38 +
    "---d-----j--m-" ] -- 39 =

/-- The mask of a row: bit k is set when column k is lit (segment a is bit 0,
segment n is bit 13). -/
def rowMask : List Char → Nat
  | [] => 0
  | c :: cs => (if c = '-' then 0 else 1) + 2 * rowMask cs

/-- A row is well formed when each column holds `-` or the letter of its
segment, and there are as many columns as segments. -/
def rowOk : List Char → List Char → Bool
  | [], [] => true
  | n :: ns, c :: cs => (c == '-' || c == n) && rowOk ns cs
  | _, _ => false

/-- The segment mask of the character code `c`. -/
def segMask (c : Nat) : Nat := rowMask (characterMap.getD c "").toList

/-- Two states agree on the pins and on the digit index, and have appended
the same events to the traces `p` and `q` they started from. -/
def SamePins (p q : List Ev) (s t : State) : Prop :=
  s.LATA = t.LATA ∧ s.LATC = t.LATC ∧ s.disp = t.disp ∧
  ∃ es : List Ev, s.trace = p ++ es ∧ t.trace = q ++ es

/-! ## Lemmas on `ShiftOut` -/

/-- Bits of a value truncated to 8 bits. -/
theorem testBit_u8 (x i : Nat) : (u8 x).testBit i = (decide (i < 8) && x.testBit i) := by
  unfold u8
  exact Nat.testBit_mod_two_pow x 8 i

/-- One pass of the loop stores three values to `LATC`: data, clock high,
clock low. -/
theorem ShiftOutBit_eq (v : Nat) (s : State) :
    ∃ d r f : Nat,
      ShiftOutBit v s =
        (u8 (v / 2), { s with LATC := f, trace := s.trace ++ [Ev.latc d, Ev.latc r, Ev.latc f] }) ∧
      d.testBit 4 = v.testBit 0 ∧ d.testBit 5 = s.LATC.testBit 5 ∧
      r.testBit 4 = v.testBit 0 ∧ r.testBit 5 = true ∧ f.testBit 5 = false := by
  by_cases h : v % 2 = 1
  · refine ⟨u8 (s.LATC ||| SHIFT_DATA_c), u8 (u8 (s.LATC ||| SHIFT_DATA_c) ||| SHIFT_CLOCK_c),
      u8 (u8 (u8 (s.LATC ||| SHIFT_DATA_c) ||| SHIFT_CLOCK_c) &&& cnot SHIFT_CLOCK_c), ?_, ?_⟩
    · simp [ShiftOutBit, setLATC, h]
    · have hv : v.testBit 0 = true := by simp [Nat.testBit_zero, h]
      simp +decide [testBit_u8, Nat.testBit_or, Nat.testBit_and, hv, SHIFT_DATA_c, SHIFT_CLOCK_c, cnot]
  · refine ⟨u8 (s.LATC &&& cnot SHIFT_DATA_c), u8 (u8 (s.LATC &&& cnot SHIFT_DATA_c) ||| SHIFT_CLOCK_c),
      u8 (u8 (u8 (s.LATC &&& cnot SHIFT_DATA_c) ||| SHIFT_CLOCK_c) &&& cnot SHIFT_CLOCK_c), ?_, ?_⟩
    · simp [ShiftOutBit, setLATC, h]
    · have hv : v.testBit 0 = false := by simp [Nat.testBit_zero, h]
      simp +decide [testBit_u8, Nat.testBit_or, Nat.testBit_and, hv, SHIFT_DATA_c, SHIFT_CLOCK_c, cnot]

/-- The bits of `v`, least significant first, in terms of those of `v / 2`. -/
theorem lsb_cons (v n : Nat) (hv : v < 256) :
    (List.range (n + 1)).map (fun i => v.testBit i) =
      v.testBit 0 :: (List.range n).map (fun i => (u8 (v / 2)).testBit i) := by
  have h : u8 (v / 2) = v / 2 := by unfold u8; omega
  rw [h, List.range_succ_eq_map]
  simp [List.map_map, Function.comp_def, Nat.testBit_succ]

/-- The pulse read from the three stores of one pass. -/
theorem clockPulses_triple (x d r f : Nat) (ws : List Nat)
    (hr5 : r.testBit 5 = true) (hf5 : f.testBit 5 = false) :
    clockPulses (d :: r :: f :: ws) = r.testBit 4 :: clockPulses (f :: ws) ∧
    (x.testBit 5 = d.testBit 5 →
      clockPulses (x :: d :: r :: f :: ws) = r.testBit 4 :: clockPulses (f :: ws)) := by
  have h1 : clockPulses (d :: r :: f :: ws) = r.testBit 4 :: clockPulses (f :: ws) := by
    simp [clockPulses, hr5, hf5]
  refine ⟨h1, fun hx => ?_⟩
  rw [← h1]
  cases hd : d.testBit 5 <;> simp [clockPulses, hx, hd]

/-- The stores of `n` passes of the loop and the pulses they make. -/
theorem ShiftOutLoop_spec (n : Nat) : ∀ (v : Nat) (s : State), v < 256 →
    ∃ ws : List Nat,
      ShiftOutLoop n v s =
        { s with LATC := ws.getLastD s.LATC, trace := s.trace ++ ws.map Ev.latc } ∧
      ws.length = 3 * n ∧
      clockPulses (s.LATC :: ws) = (List.range n).map (fun i => v.testBit i) ∧
      clockPulses ws = (List.range n).map (fun i => v.testBit i) ∧
      (0 < n → (ws.getLastD s.LATC).testBit 5 = false) ∧
      (s.LATC.testBit 5 = false →
        clockRises (s.LATC :: ws) = (List.range n).map (fun i => v.testBit i)) := by
  induction n with
  | zero =>
    intro v s _
    exact ⟨[], by simp [ShiftOutLoop], rfl, by simp [clockPulses], by simp [clockPulses],
      by simp, by simp [clockRises]⟩
  | succ n ih =>
    intro v s hv
    obtain ⟨d, r, f, hb, hd4, hd5, hr4, hr5, hf5⟩ := ShiftOutBit_eq v s
    obtain ⟨ws, hl, hlen, hp1, hp2, hlast, hrise⟩ :=
      ih (u8 (v / 2)) { s with LATC := f, trace := s.trace ++ [Ev.latc d, Ev.latc r, Ev.latc f] }
        (by unfold u8; omega)
    have ht := clockPulses_triple s.LATC d r f ws hr5 hf5
    refine ⟨d :: r :: f :: ws, ?_, ?_, ?_, ?_, ?_, ?_⟩
    · show ShiftOutLoop n (ShiftOutBit v s).1 (ShiftOutBit v s).2 = _
      dsimp only at hl
      rw [hb]
      dsimp only
      rw [hl]
      simp [List.getLast?_cons]
    · simp [hlen]; omega
    · rw [ht.2 hd5.symm, lsb_cons v n hv, hr4]
      simpa using hp1
    · rw [ht.1, lsb_cons v n hv, hr4]
      simpa using hp1
    · intro _
      simp only [List.getLastD_cons]
      rcases Nat.eq_zero_or_pos n with h0 | hpos
      · subst h0
        have : ws = [] := by simpa using hlen
        subst this
        simpa using hf5
      · simpa using hlast hpos
    · intro hL
      have hd5' : d.testBit 5 = false := hd5.trans hL
      have h3 : clockRises (s.LATC :: d :: r :: f :: ws) = r.testBit 4 :: clockRises (f :: ws) := by
        simp [clockRises, hL, hd5', hr5, hf5]
      rw [h3, lsb_cons v n hv, hr4]
      simpa using hrise hf5

/-- The stores of one call of `ShiftOut`. -/
theorem ShiftOut_spec (v : Nat) (s : State) :
    ∃ ws : List Nat,
      ShiftOut v s =
        { s with LATC := ws.getLastD s.LATC,
                 trace := s.trace ++ Ev.call (u8 v) :: ws.map Ev.latc } ∧
      ws.length = 24 ∧
      clockPulses (s.LATC :: ws) = (List.range 8).map (fun i => v.testBit i) ∧
      clockPulses ws = (List.range 8).map (fun i => v.testBit i) ∧
      (ws.getLastD s.LATC).testBit 5 = false ∧
      (s.LATC.testBit 5 = false →
        clockRises (s.LATC :: ws) = (List.range 8).map (fun i => v.testBit i)) := by
  obtain ⟨ws, hl, hlen, hp1, hp2, hlast, hrise⟩ :=
    ShiftOutLoop_spec 8 (u8 v) { s with trace := s.trace ++ [Ev.call (u8 v)] }
      (by unfold u8; omega)
  have hbits : (List.range 8).map (fun i => (u8 v).testBit i) =
      (List.range 8).map (fun i => v.testBit i) := by
    apply List.map_congr_left
    intro i hi
    have : i < 8 := List.mem_range.1 hi
    simp [testBit_u8, this]
  refine ⟨ws, ?_, hlen, ?_, ?_, ?_, ?_⟩
  · unfold ShiftOut
    rw [hl]
    simp
  · rw [← hbits]; simpa using hp1
  · rw [← hbits]; exact hp2
  · simpa using hlast (by decide)
  · intro hL
    rw [← hbits]
    exact hrise hL

/-- Reading back a sequence of `LATC` stores. -/
theorem latcWrites_map_latc (ws : List Nat) : latcWrites (ws.map Ev.latc) = ws := by
  induction ws with
  | nil => rfl
  | cons w ws ih => simp [latcWrites, ih]

/-- The events appended, when the final trace is known. -/
theorem emitted_append (s t : State) (es : List Ev) (h : t.trace = s.trace ++ es) :
    emitted s t = es := by
  simp [emitted, h]

/-! ## Lemmas on sequences of calls -/

/-- The function `latcWrites` distributes over concatenation. -/
theorem latcWrites_append (es fs : List Ev) :
    latcWrites (es ++ fs) = latcWrites es ++ latcWrites fs := by
  induction es with
  | nil => rfl
  | cons e es ih => cases e <;> simp [latcWrites, ih]

/-- The function `calls` distributes over concatenation. -/
theorem calls_append (es fs : List Ev) : calls (es ++ fs) = calls es ++ calls fs := by
  induction es with
  | nil => rfl
  | cons e es ih => cases e <;> simp [calls, ih]

/-- A sequence of `LATC` stores holds no call. -/
theorem calls_map_latc (ws : List Nat) : calls (ws.map Ev.latc) = [] := by
  induction ws with
  | nil => rfl
  | cons w ws ih => simp [calls, ih]

/-- The last element of a concatenation. -/
theorem getLastD_append (A B : List Nat) (x : Nat) :
    (A ++ B).getLastD x = B.getLastD (A.getLastD x) := by
  induction A generalizing x with
  | nil => rfl
  | cons a A ih => simp only [List.cons_append, List.getLastD_cons, ih]

/-- The defining equation of `clockPulses` on two or more stores. -/
theorem clockPulses_cons_cons (a b : Nat) (rest : List Nat) :
    clockPulses (a :: b :: rest) =
      if a.testBit 5 && !b.testBit 5 then a.testBit 4 :: clockPulses (b :: rest)
      else clockPulses (b :: rest) := by
  rw [clockPulses]

/-- The pulses of a concatenation: those of the first part, then those of the
second part read after the last store of the first. -/
theorem clockPulses_append (A B : List Nat) (a : Nat) :
    clockPulses (a :: (A ++ B)) = clockPulses (a :: A) ++ clockPulses (A.getLastD a :: B) := by
  induction A generalizing a with
  | nil => simp [clockPulses]
  | cons b A ih =>
    simp only [List.cons_append, List.getLastD_cons]
    rw [clockPulses_cons_cons a b (A ++ B), clockPulses_cons_cons a b A, ih b]
    split <;> simp

/-- No call at all. -/
theorem Shifts_nil (s : State) : Shifts [] s s :=
  ⟨[], by simp [latcWrites], rfl, by simp, by simp [latcWrites, clockPulses],
    by simp [latcWrites, clockPulses], by simp⟩

/-- One more call of `ShiftOut`. -/
theorem Shifts_snoc (bytes : List Nat) (v : Nat) (s t : State) (h : Shifts bytes s t) :
    Shifts (bytes ++ [v]) s (ShiftOut v t) := by
  obtain ⟨es, ht, hc, hna, hp1, hp2, _⟩ := h
  obtain ⟨ws, hs, _, hq1, hq2, hlast, -⟩ := ShiftOut_spec v t
  have htL : t.LATC = (latcWrites es).getLastD s.LATC := by rw [ht]
  have htT : t.trace = s.trace ++ es := by rw [ht]
  refine ⟨es ++ Ev.call (u8 v) :: ws.map Ev.latc, ?_, ?_, ?_, ?_, ?_, ?_⟩
  · rw [hs, latcWrites_append, getLastD_append]
    simp only [latcWrites, latcWrites_map_latc]
    rw [← htL, htT]
    rw [ht]
    simp
  · simp [calls_append, calls, calls_map_latc, hc]
  · intro w hw
    rcases List.mem_append.1 hw with h1 | h1
    · exact hna w h1
    · simp at h1
  · rw [latcWrites_append]
    simp only [latcWrites, latcWrites_map_latc]
    rw [clockPulses_append, hp1, ← htL, hq1]
    simp [lsbFirst]
  · rw [latcWrites_append]
    simp only [latcWrites, latcWrites_map_latc]
    cases hA : latcWrites es with
    | nil =>
      rw [hA] at hp2
      have : bytes.flatMap lsbFirst = [] := by rw [← hp2]; simp [clockPulses]
      simp [hq2, this, lsbFirst]
    | cons a A =>
      rw [hA] at hp2 htL
      simp only [List.cons_append, List.getLastD_cons] at htL ⊢
      rw [clockPulses_append, hp2, ← htL, hq1]
      simp [lsbFirst]
  · intro _
    rw [hs]
    exact hlast

/-! ## Lemmas on the handler -/

/-- The software tick leaves the pins, the trace and the scan variables alone. -/
theorem ISR_timer_frame (s : State) :
    (ISR_timer s).trace = s.trace ∧ (ISR_timer s).LATA = s.LATA ∧
    (ISR_timer s).LATC = s.LATC ∧ (ISR_timer s).PORTC = s.PORTC ∧
    (ISR_timer s).disp = s.disp ∧ (ISR_timer s).lastButton = s.lastButton ∧
    (ISR_timer s).pattern = s.pattern := by
  unfold ISR_timer
  split
  · dsimp only
    split <;> simp
  · simp

/-- The button sample leaves the pins, the trace and the tick alone. -/
theorem ISR_button_frame (s : State) :
    (ISR_button s).trace = s.trace ∧ (ISR_button s).LATA = s.LATA ∧
    (ISR_button s).LATC = s.LATC ∧ (ISR_button s).PORTC = s.PORTC ∧
    (ISR_button s).T0IF = s.T0IF ∧ (ISR_button s).tick = s.tick ∧
    (ISR_button s).localTick = s.localTick := by
  unfold ISR_button
  dsimp only
  split <;> split <;> simp

/-- Calls of `ShiftOut` change only `LATC` and the trace. -/
theorem Shifts_frame (bytes : List Nat) (s t : State) (h : Shifts bytes s t) :
    t.LATA = s.LATA ∧ t.PORTC = s.PORTC ∧ t.T0IF = s.T0IF ∧ t.tick = s.tick ∧
    t.pattern = s.pattern ∧ t.disp = s.disp ∧ t.lastButton = s.lastButton ∧
    t.localTick = s.localTick := by
  obtain ⟨es, ht, _⟩ := h
  rw [ht]
  simp

/-- The six calls of `ShiftOut` of one step. -/
theorem ISR_shift_spec (ch : Nat) (s : State) :
    Shifts (selBytes ch ++ [cnot (1 <<< s.disp)]) s (ISR_shift ch s) := by
  have h0 := Shifts_nil s
  have h1 := Shifts_snoc _ (if u8 (ch / 8) = 0 then u8 (1 <<< (ch &&& 7)) else 0) _ _ h0
  have h2 := Shifts_snoc _ (if u8 (ch / 8) = 1 then u8 (1 <<< (ch &&& 7)) else 0) _ _ h1
  have h3 := Shifts_snoc _ (if u8 (ch / 8) = 2 then u8 (1 <<< (ch &&& 7)) else 0) _ _ h2
  have h4 := Shifts_snoc _ (if u8 (ch / 8) = 3 then u8 (1 <<< (ch &&& 7)) else 0) _ _ h3
  have h5 := Shifts_snoc _ (if u8 (ch / 8) = 4 then u8 (1 <<< (ch &&& 7)) else 0) _ _ h4
  have hd := (Shifts_frame _ _ _ h5).2.2.2.2.2.1
  have h6 := Shifts_snoc _ (cnot (1 <<< s.disp)) _ _ h5
  unfold ISR_shift
  dsimp only
  rw [hd]
  exact h6

/-- The latch pulse: two stores to `LATA`, the first with the latch bit set,
the second with it clear. -/
theorem ISR_latch_spec (t : State) :
    ∃ a1 a2 : Nat,
      ISR_latch t = { t with LATA := a2, trace := t.trace ++ [Ev.lata a1, Ev.lata a2] } ∧
      a1.testBit 4 = true ∧ a2.testBit 4 = false := by
  refine ⟨u8 (t.LATA ||| SHIFT_LATCH_a), u8 (u8 (t.LATA ||| SHIFT_LATCH_a) &&& cnot SHIFT_LATCH_a),
    ?_, ?_, ?_⟩
  · simp [ISR_latch, setLATA]
  · simp +decide [testBit_u8, Nat.testBit_or, SHIFT_LATCH_a]
  · simp +decide [testBit_u8, Nat.testBit_or, Nat.testBit_and, SHIFT_LATCH_a, cnot]

/-- The events of one step: six calls of `ShiftOut` on the character-select
bytes and the digit-select byte, then the latch pulse. -/
theorem ISR_ch_trace (ch : Nat) (s : State) :
    ∃ (es : List Ev) (a1 a2 : Nat),
      (ISR_ch ch s).trace = s.trace ++ (es ++ [Ev.lata a1, Ev.lata a2]) ∧
      calls es = (selBytes ch ++ [cnot (1 <<< s.disp)]).map u8 ∧
      (∀ w, Ev.lata w ∉ es) ∧
      clockPulses (latcWrites es) = (selBytes ch ++ [cnot (1 <<< s.disp)]).flatMap lsbFirst ∧
      (ISR_ch ch s).LATC.testBit 5 = false ∧
      (ISR_ch ch s).LATA = a2 ∧ a1.testBit 4 = true ∧ a2.testBit 4 = false := by
  obtain ⟨hTt, _, hTc, _, hTd, _⟩ := ISR_timer_frame s
  obtain ⟨hBt, hBa, hBc, _⟩ := ISR_button_frame (ISR_latch (ISR_shift ch (ISR_timer s)))
  obtain ⟨a1, a2, hL, h1, h2⟩ := ISR_latch_spec (ISR_shift ch (ISR_timer s))
  obtain ⟨es, hS, hc, hna, _, hp, hlast⟩ := ISR_shift_spec ch (ISR_timer s)
  rw [hTd] at hc hp
  refine ⟨es, a1, a2, ?_, hc, hna, hp, ?_, ?_, h1, h2⟩
  · unfold ISR_ch
    rw [hBt, hL]
    dsimp only
    rw [hS]
    simp [hTt]
  · unfold ISR_ch
    rw [hBc, hL]
    exact hlast (by simp)
  · unfold ISR_ch
    rw [hBa, hL]

/-- The two stores of the latch pulse are no calls. -/
theorem calls_latch (es : List Ev) (a1 a2 : Nat) :
    calls (es ++ [Ev.lata a1, Ev.lata a2]) = calls es := by
  simp [calls_append, calls]

/-- The character-select bytes of a code in 0..39. -/
theorem selBytes_eq (c : Nat) (hc : c ≤ 39) :
    (selBytes c).map u8 =
      (List.range 5).map (fun k => if k = c / 8 then 1 <<< (c &&& 7) else 0) := by
  interval_cases c <;> decide

/-- Exactly one bit is set among the character-select bytes. -/
theorem selBytes_one_hot (c : Nat) (hc : c ≤ 39) :
    ∀ k < 5, ∀ j < 8,
      ((((selBytes c).map u8).getD k 0).testBit j = true ↔ (k = c / 8 ∧ j = c % 8)) := by
  interval_cases c <;> decide

/-- The digit-select byte of a digit index in 0..7. -/
theorem digit_byte (d : Nat) (hd : d ≤ 7) :
    u8 (cnot (1 <<< d)) = 255 - 2 ^ d ∧
    ∀ j < 8, ((255 - 2 ^ d).testBit j = false ↔ j = d) := by
  interval_cases d <;> decide

/-- The six bytes one step passes to `ShiftOut`. -/
theorem calls_step (ch : Nat) (s : State) :
    calls (emitted s (ISR_ch ch s)) = (selBytes ch).map u8 ++ [u8 (cnot (1 <<< s.disp))] := by
  obtain ⟨es, a1, a2, ht, hcalls, -⟩ := ISR_ch_trace ch s
  rw [emitted_append s _ _ ht, calls_latch, hcalls]
  simp

/-- The latch pulse changes only `LATA` and the trace. -/
theorem ISR_latch_frame (t : State) :
    (ISR_latch t).LATC = t.LATC ∧ (ISR_latch t).PORTC = t.PORTC ∧
    (ISR_latch t).T0IF = t.T0IF ∧ (ISR_latch t).tick = t.tick ∧
    (ISR_latch t).pattern = t.pattern ∧ (ISR_latch t).disp = t.disp ∧
    (ISR_latch t).lastButton = t.lastButton ∧ (ISR_latch t).localTick = t.localTick := by
  simp [ISR_latch, setLATA]

/-- The shifting and latching part of a step changes only `LATA`, `LATC`
and the trace. -/
theorem ISR_pins_frame (ch : Nat) (s : State) :
    (ISR_latch (ISR_shift ch s)).PORTC = s.PORTC ∧
    (ISR_latch (ISR_shift ch s)).T0IF = s.T0IF ∧
    (ISR_latch (ISR_shift ch s)).tick = s.tick ∧
    (ISR_latch (ISR_shift ch s)).pattern = s.pattern ∧
    (ISR_latch (ISR_shift ch s)).disp = s.disp ∧
    (ISR_latch (ISR_shift ch s)).lastButton = s.lastButton ∧
    (ISR_latch (ISR_shift ch s)).localTick = s.localTick := by
  obtain ⟨-, h1, h2, h3, h4, h5, h6, h7⟩ := ISR_latch_frame (ISR_shift ch s)
  obtain ⟨-, g1, g2, g3, g4, g5, g6, g7⟩ := Shifts_frame _ _ _ (ISR_shift_spec ch s)
  exact ⟨h1.trans g1, h2.trans g2, h3.trans g3, h4.trans g4, h5.trans g5, h6.trans g6,
    h7.trans g7⟩

/-- The button sample and the advance of `disp`, field by field. -/
theorem ISR_button_control (x : State) :
    (ISR_button x).lastButton =
      (if x.PORTC &&& BUTTON_c = 0 then u8 (x.lastButton + 1) else x.lastButton) ∧
    (ISR_button x).disp = (if x.disp = 8 then 0 else u8 (x.disp + 1)) ∧
    (ISR_button x).pattern =
      (if x.disp = 8 then
        (if x.PORTC &&& BUTTON_c = 0 then u8 (x.lastButton + 1) else x.lastButton)
       else x.pattern) := by
  unfold ISR_button
  dsimp only
  split <;> split <;> simp_all

/-- The software tick, field by field. -/
theorem ISR_timer_control (s : State) :
    (ISR_timer s).T0IF = false ∧
    (ISR_timer s).localTick =
      (if s.T0IF = true then (if s.localTick > 49 then 0 else u16 (s.localTick + 1))
       else s.localTick) ∧
    (ISR_timer s).tick =
      (if s.T0IF = true ∧ s.localTick > 49 then u8 (s.tick + 1) else s.tick) := by
  unfold ISR_timer
  split
  · dsimp only
    split
    · simp_all
    · rename_i h1 h2
      rw [if_neg (fun h => h2 h.2)]
      simp
  · simp_all

/-- The variables of the handler after one step, in terms of those before. -/
theorem ISR_ch_control (ch : Nat) (s : State) :
    (ISR_ch ch s).lastButton =
      (if s.PORTC &&& BUTTON_c = 0 then u8 (s.lastButton + 1) else s.lastButton) ∧
    (ISR_ch ch s).disp = (if s.disp = 8 then 0 else u8 (s.disp + 1)) ∧
    (ISR_ch ch s).pattern =
      (if s.disp = 8 then
        (if s.PORTC &&& BUTTON_c = 0 then u8 (s.lastButton + 1) else s.lastButton)
       else s.pattern) ∧
    (ISR_ch ch s).T0IF = false ∧
    (ISR_ch ch s).localTick =
      (if s.T0IF = true then (if s.localTick > 49 then 0 else u16 (s.localTick + 1))
       else s.localTick) ∧
    (ISR_ch ch s).tick =
      (if s.T0IF = true ∧ s.localTick > 49 then u8 (s.tick + 1) else s.tick) := by
  obtain ⟨-, -, -, t1, t2, t3, t4⟩ := ISR_timer_frame s
  obtain ⟨c1, c2, c3⟩ := ISR_timer_control s
  obtain ⟨p1, p2, p3, p4, p5, p6, p7⟩ := ISR_pins_frame ch (ISR_timer s)
  obtain ⟨b1, b2, b3⟩ := ISR_button_control (ISR_latch (ISR_shift ch (ISR_timer s)))
  obtain ⟨-, -, -, -, f1, f2, f3⟩ := ISR_button_frame (ISR_latch (ISR_shift ch (ISR_timer s)))
  unfold ISR_ch
  refine ⟨?_, ?_, ?_, ?_, ?_, ?_⟩
  · rw [b1, p1, p6, t1, t3]
  · rw [b2, p5, t2]
  · rw [b3, p1, p4, p5, p6, t1, t2, t3, t4]
  · rw [f1, p2, c1]
  · rw [f3, p7, c2]
  · rw [f2, p3, c3]

/-! ## Lemmas on runs -/

/-- The function `view` distributes over concatenation. -/
theorem view_append (es fs : List Ev) : view (es ++ fs) = view es ++ view fs := by
  induction es with
  | nil => rfl
  | cons e es ih => cases e <;> simp [view, ih]

/-- Without a store to `LATA`, the view of a trace is its calls. -/
theorem view_no_lata (es : List Ev) (h : ∀ w, Ev.lata w ∉ es) :
    view es = (calls es).map Sig.byte := by
  induction es with
  | nil => rfl
  | cons e es ih =>
    have h' : ∀ w, Ev.lata w ∉ es := fun w hw => h w (List.mem_cons_of_mem _ hw)
    cases e with
    | call v => simp [view, calls, ih h']
    | latc w => simp [view, calls, ih h']
    | lata w => exact absurd (List.mem_cons_self _ _) (h w)

/-- The bytes and the latch pulse of one step. -/
theorem view_step (ch : Nat) (s : State) :
    view (ISR_ch ch s).trace =
      view s.trace ++ (((selBytes ch).map u8 ++ [u8 (cnot (1 <<< s.disp))]).map Sig.byte ++
        [Sig.latch true, Sig.latch false]) := by
  obtain ⟨es, a1, a2, ht, hcalls, hna, -, -, -, h1, h2⟩ := ISR_ch_trace ch s
  rw [ht, view_append, view_append, view_no_lata es hna, hcalls]
  simp [view, h1, h2]

/-- One interrupt step, field by field. -/
theorem interrupt_control (i : Input) (s : State) :
    (interrupt i s).lastButton =
      (if u8 i.portc &&& BUTTON_c = 0 then u8 (s.lastButton + 1) else s.lastButton) ∧
    (interrupt i s).disp = (if s.disp = 8 then 0 else u8 (s.disp + 1)) ∧
    (interrupt i s).pattern =
      (if s.disp = 8 then
        (if u8 i.portc &&& BUTTON_c = 0 then u8 (s.lastButton + 1) else s.lastButton)
       else s.pattern) ∧
    (interrupt i s).T0IF = false ∧
    (interrupt i s).localTick =
      (if i.t0if = true then (if s.localTick > 49 then 0 else u16 (s.localTick + 1))
       else s.localTick) ∧
    (interrupt i s).tick =
      (if i.t0if = true ∧ s.localTick > 49 then u8 (s.tick + 1) else s.tick) :=
  ISR_ch_control 39 { s with PORTC := u8 i.portc, T0IF := i.t0if }

/-- The bytes and the latch pulse of one interrupt step. -/
theorem view_interrupt (i : Input) (s : State) :
    view (interrupt i s).trace =
      view s.trace ++ (((selBytes 39).map u8 ++ [u8 (cnot (1 <<< s.disp))]).map Sig.byte ++
        [Sig.latch true, Sig.latch false]) :=
  view_step 39 { s with PORTC := u8 i.portc, T0IF := i.t0if }

/-- A run over a concatenation of inputs. -/
theorem run_append (is js : List Input) (s : State) :
    run (is ++ js) s = run js (run is s) := by
  induction is generalizing s with
  | nil => rfl
  | cons i is ih => simp [run, ih]

/-- From a state with `disp ≤ 8` the index after a run is the number of
steps, counted from the index at the start, modulo 9. -/
theorem run_disp (is : List Input) : ∀ s : State, s.disp ≤ 8 →
    (run is s).disp = (s.disp + is.length) % 9 := by
  induction is with
  | nil => intro s h; simp [run]; omega
  | cons i is ih =>
    intro s h
    have hd := (interrupt_control i s).2.1
    have hle : (interrupt i s).disp ≤ 8 := by
      rw [hd]; split
      · omega
      · unfold u8; omega
    show (run is (interrupt i s)).disp = _
    rw [ih _ hle, hd]
    split
    · simp only [List.length_cons]; omega
    · simp only [List.length_cons]; unfold u8; omega

/-- The accumulator counts the pressed samples of a run, modulo 256. -/
theorem run_lastButton (is : List Input) : ∀ s : State, s.lastButton < 256 →
    (run is s).lastButton = (s.lastButton + presses is) % 256 := by
  induction is with
  | nil => intro s h; simp [run, presses]; omega
  | cons i is ih =>
    intro s h
    have hb := (interrupt_control i s).1
    have hlt : (interrupt i s).lastButton < 256 := by
      rw [hb]; split
      · unfold u8; omega
      · exact h
    show (run is (interrupt i s)).lastButton = _
    rw [ih _ hlt, hb]
    have hc : presses (i :: is) =
        (if u8 i.portc &&& BUTTON_c = 0 then 1 else 0) + presses is := rfl
    rw [hc]
    by_cases hp : u8 i.portc &&& BUTTON_c = 0
    · rw [if_pos hp, if_pos hp]
      have : u8 (s.lastButton + 1) = (s.lastButton + 1) % 256 := rfl
      omega
    · rw [if_neg hp, if_neg hp]
      omega

/-- While the index has not passed 8, `pattern` is not written. -/
theorem run_pattern (is : List Input) : ∀ s : State, s.disp + is.length ≤ 8 →
    (run is s).pattern = s.pattern := by
  induction is with
  | nil => intro s _; rfl
  | cons i is ih =>
    intro s h
    simp only [List.length_cons] at h
    have hd := (interrupt_control i s).2.1
    have hp := (interrupt_control i s).2.2.1
    have h8 : s.disp ≠ 8 := by omega
    rw [if_neg h8] at hd hp
    show (run is (interrupt i s)).pattern = _
    rw [ih _ (by rw [hd]; unfold u8; omega), hp]

/-- With the timer flag set at every step, `localTick` counts the steps
modulo 51 and `tick` counts the wraps. -/
theorem run_tick (ps : List Nat) : ∀ s : State, s.localTick ≤ 50 → s.tick < 256 →
    (run (ps.map (fun p => (⟨p, true⟩ : Input))) s).localTick = (s.localTick + ps.length) % 51 ∧
    (run (ps.map (fun p => (⟨p, true⟩ : Input))) s).tick =
      (s.tick + (s.localTick + ps.length) / 51) % 256 := by
  induction ps with
  | nil => intro s h1 h2; simp [run]; omega
  | cons p ps ih =>
    intro s h1 h2
    have hl := (interrupt_control ⟨p, true⟩ s).2.2.2.2.1
    have ht := (interrupt_control ⟨p, true⟩ s).2.2.2.2.2
    simp only [true_and, if_true] at hl ht
    show (run _ (interrupt ⟨p, true⟩ s)).localTick = _ ∧ (run _ (interrupt ⟨p, true⟩ s)).tick = _
    by_cases h : s.localTick > 49
    · rw [if_pos h] at hl ht
      have := ih (interrupt ⟨p, true⟩ s) (by rw [hl]; omega) (by rw [ht]; unfold u8; omega)
      rw [this.1, this.2, hl, ht]
      simp only [List.length_cons]
      unfold u8
      constructor <;> omega
    · rw [if_neg h] at hl ht
      have := ih (interrupt ⟨p, true⟩ s) (by rw [hl]; unfold u16; omega) (by rw [ht]; exact h2)
      rw [this.1, this.2, hl, ht]
      simp only [List.length_cons]
      unfold u16
      constructor <;> omega

/-- The bytes and the latch pulse of a step at digit index `d`, `ch = 39`. -/
theorem step_view_eq (d : Nat) (hd : d ≤ 7) :
    ((selBytes 39).map u8 ++ [u8 (cnot (1 <<< d))]).map Sig.byte ++
        [Sig.latch true, Sig.latch false] =
      [Sig.byte 0x00, Sig.byte 0x00, Sig.byte 0x00, Sig.byte 0x00, Sig.byte 0x80,
        Sig.byte (255 - 2 ^ d), Sig.latch true, Sig.latch false] := by
  have h : (selBytes 39).map u8 = [0, 0, 0, 0, 128] := by decide
  rw [(digit_byte d hd).1, h]
  rfl

/-- While the index stays within 0..7, each step of a run shows the bytes
0, 0, 0, 0, 0x80 and the digit-select byte, then a latch pulse. -/
theorem run_view (is : List Input) : ∀ s : State, s.disp + is.length ≤ 8 →
    view (run is s).trace = view s.trace ++ (List.range is.length).flatMap (fun k =>
      [Sig.byte 0x00, Sig.byte 0x00, Sig.byte 0x00, Sig.byte 0x00, Sig.byte 0x80,
        Sig.byte (255 - 2 ^ (s.disp + k)), Sig.latch true, Sig.latch false]) := by
  induction is with
  | nil => intro s _; simp [run]
  | cons i is ih =>
    intro s h
    simp only [List.length_cons] at h
    have hd := (interrupt_control i s).2.1
    have h8 : s.disp ≠ 8 := by omega
    rw [if_neg h8] at hd
    have hd' : (interrupt i s).disp = s.disp + 1 := by rw [hd]; unfold u8; omega
    show view (run is (interrupt i s)).trace = _
    rw [ih _ (by rw [hd']; omega), view_interrupt, step_view_eq s.disp (by omega), hd']
    simp only [List.length_cons, List.range_succ_eq_map, List.flatMap_cons, List.flatMap_map,
      List.append_assoc, Nat.add_zero]
    congr 2
    apply List.flatMap_congr
    intro k _
    simp [Nat.add_assoc, Nat.add_comm 1 k]

/-- The digit index at power-on. -/
theorem powerOn_disp (lata latc : Nat) : (powerOn lata latc).disp = 0 := rfl

/-! ## Lemmas for the frame and dependence properties -/

/-- The button test of line 252 reads bit 3 of port C. -/
theorem button_test (p : Nat) : (p &&& BUTTON_c = 0) ↔ p.testBit 3 = false := by
  have h : BUTTON_c = 2 ^ 3 := rfl
  rw [h, Nat.and_two_pow]
  cases p.testBit 3 <;> simp

/-- One pass of the loop keeps `LATA` and, in `LATC`, every bit below bit 8
other than the data and clock bits; it stores an 8-bit value. -/
theorem ShiftOutBit_bits (v : Nat) (s : State) :
    (ShiftOutBit v s).2.LATA = s.LATA ∧ (ShiftOutBit v s).2.LATC < 256 ∧
    ∀ i, i < 8 → i ≠ 4 → i ≠ 5 → (ShiftOutBit v s).2.LATC.testBit i = s.LATC.testBit i := by
  obtain ⟨d, r, f, hb, -⟩ := ShiftOutBit_eq v s
  refine ⟨by rw [hb], ?_, ?_⟩
  · unfold ShiftOutBit setLATC
    dsimp only
    unfold u8
    omega
  · intro i hi h4 h5
    unfold ShiftOutBit setLATC
    dsimp only
    by_cases h : v &&& 1 ≠ 0
    · rw [if_pos h]
      dsimp only
      simp only [testBit_u8, Nat.testBit_or, Nat.testBit_and]
      generalize s.LATC.testBit i = b
      interval_cases i <;> first
        | exact absurd rfl h4
        | exact absurd rfl h5
        | (cases b <;> decide)
    · rw [if_neg h]
      dsimp only
      simp only [testBit_u8, Nat.testBit_or, Nat.testBit_and]
      generalize s.LATC.testBit i = b
      interval_cases i <;> first
        | exact absurd rfl h4
        | exact absurd rfl h5
        | (cases b <;> decide)

/-- The loop keeps `LATA` and the bits of `LATC` below bit 8 other than the
data and clock bits. -/
theorem ShiftOutLoop_bits (n : Nat) : ∀ (v : Nat) (s : State),
    (ShiftOutLoop n v s).LATA = s.LATA ∧
    (0 < n → (ShiftOutLoop n v s).LATC < 256) ∧
    ∀ i, i < 8 → i ≠ 4 → i ≠ 5 → (ShiftOutLoop n v s).LATC.testBit i = s.LATC.testBit i := by
  induction n with
  | zero => intro v s; exact ⟨rfl, by simp, fun _ _ _ _ => rfl⟩
  | succ n ih =>
    intro v s
    obtain ⟨b1, b2, b3⟩ := ShiftOutBit_bits v s
    obtain ⟨l1, l2, l3⟩ := ih (ShiftOutBit v s).1 (ShiftOutBit v s).2
    refine ⟨l1.trans b1, fun _ => ?_, fun i hi h4 h5 => (l3 i hi h4 h5).trans (b3 i hi h4 h5)⟩
    show (ShiftOutLoop n (ShiftOutBit v s).1 (ShiftOutBit v s).2).LATC < 256
    rcases Nat.eq_zero_or_pos n with h0 | hpos
    · subst h0; exact b2
    · exact l2 hpos

/-- The internal counter never passes 50. -/
theorem run_localTick_le (is : List Input) : ∀ s : State, s.localTick ≤ 50 →
    (run is s).localTick ≤ 50 := by
  induction is with
  | nil => intro s h; exact h
  | cons i is ih =>
    intro s h
    have hl := (interrupt_control i s).2.2.2.2.1
    apply ih
    rw [hl]
    split
    · split
      · omega
      · unfold u16; omega
    · exact h

/-- The events of one interrupt step are those of the handler. -/
theorem calls_interrupt (i : Input) (s : State) :
    calls (emitted s (interrupt i s)) = (selBytes 39).map u8 ++ [u8 (cnot (1 <<< s.disp))] :=
  calls_step 39 { s with PORTC := u8 i.portc, T0IF := i.t0if }

/-- The digit-select byte at index 8: no bit clear. -/
theorem digit_byte_eight : u8 (cnot (1 <<< 8)) = 0xFF := by decide

/-- A store of the same value to `LATC` keeps the agreement. -/
theorem SamePins_setLATC (p q : List Ev) (s t : State) (w : Nat) (h : SamePins p q s t) :
    SamePins p q (setLATC w s) (setLATC w t) := by
  obtain ⟨h1, _, h3, es, h4, h5⟩ := h
  exact ⟨h1, rfl, h3, es ++ [Ev.latc (u8 w)], by simp [setLATC, h4], by simp [setLATC, h5]⟩

/-- A store of the same value to `LATA` keeps the agreement. -/
theorem SamePins_setLATA (p q : List Ev) (s t : State) (w : Nat) (h : SamePins p q s t) :
    SamePins p q (setLATA w s) (setLATA w t) := by
  obtain ⟨_, h2, h3, es, h4, h5⟩ := h
  exact ⟨rfl, h2, h3, es ++ [Ev.lata (u8 w)], by simp [setLATA, h4], by simp [setLATA, h5]⟩

/-- One pass of the loop keeps the agreement. -/
theorem SamePins_ShiftOutBit (p q : List Ev) (v : Nat) (s t : State) (h : SamePins p q s t) :
    (ShiftOutBit v s).1 = (ShiftOutBit v t).1 ∧
    SamePins p q (ShiftOutBit v s).2 (ShiftOutBit v t).2 := by
  refine ⟨rfl, ?_⟩
  have hC : s.LATC = t.LATC := h.2.1
  unfold ShiftOutBit
  dsimp only
  have h1 : SamePins p q
      (if v &&& 1 ≠ 0 then setLATC (s.LATC ||| SHIFT_DATA_c) s
        else setLATC (s.LATC &&& cnot SHIFT_DATA_c) s)
      (if v &&& 1 ≠ 0 then setLATC (t.LATC ||| SHIFT_DATA_c) t
        else setLATC (t.LATC &&& cnot SHIFT_DATA_c) t) := by
    rw [hC]
    split
    · exact SamePins_setLATC _ _ _ _ _ h
    · exact SamePins_setLATC _ _ _ _ _ h
  have h2 := SamePins_setLATC p q _ _
    ((if v &&& 1 ≠ 0 then setLATC (s.LATC ||| SHIFT_DATA_c) s
        else setLATC (s.LATC &&& cnot SHIFT_DATA_c) s).LATC ||| SHIFT_CLOCK_c) h1
  have e2 := h2.2.1
  have h3 := SamePins_setLATC p q _ _
    ((setLATC ((if v &&& 1 ≠ 0 then setLATC (s.LATC ||| SHIFT_DATA_c) s
        else setLATC (s.LATC &&& cnot SHIFT_DATA_c) s).LATC ||| SHIFT_CLOCK_c)
      (if v &&& 1 ≠ 0 then setLATC (s.LATC ||| SHIFT_DATA_c) s
        else setLATC (s.LATC &&& cnot SHIFT_DATA_c) s)).LATC &&& cnot SHIFT_CLOCK_c) h2
  rw [← h1.2.1, ← e2]
  exact h3

/-- The loop keeps the agreement. -/
theorem SamePins_ShiftOutLoop (p q : List Ev) (n : Nat) : ∀ (v : Nat) (s t : State),
    SamePins p q s t → SamePins p q (ShiftOutLoop n v s) (ShiftOutLoop n v t) := by
  induction n with
  | zero => intro v s t h; exact h
  | succ n ih =>
    intro v s t h
    obtain ⟨h1, h2⟩ := SamePins_ShiftOutBit p q v s t h
    show SamePins p q (ShiftOutLoop n (ShiftOutBit v s).1 (ShiftOutBit v s).2)
      (ShiftOutLoop n (ShiftOutBit v t).1 (ShiftOutBit v t).2)
    rw [← h1]
    exact ih _ _ _ h2

/-- A call of `ShiftOut` keeps the agreement. -/
theorem SamePins_ShiftOut (p q : List Ev) (v : Nat) (s t : State) (h : SamePins p q s t) :
    SamePins p q (ShiftOut v s) (ShiftOut v t) := by
  unfold ShiftOut
  apply SamePins_ShiftOutLoop
  obtain ⟨h1, h2, h3, es, h4, h5⟩ := h
  exact ⟨h1, h2, h3, es ++ [Ev.call (u8 v)], by simp [h4], by simp [h5]⟩

/-- The six calls of a step keep the agreement. -/
theorem SamePins_ISR_shift (p q : List Ev) (ch : Nat) (s t : State) (h : SamePins p q s t) :
    SamePins p q (ISR_shift ch s) (ISR_shift ch t) := by
  have h1 := SamePins_ShiftOut p q (if u8 (ch / 8) = 0 then u8 (1 <<< (ch &&& 7)) else 0) _ _ h
  have h2 := SamePins_ShiftOut p q (if u8 (ch / 8) = 1 then u8 (1 <<< (ch &&& 7)) else 0) _ _ h1
  have h3 := SamePins_ShiftOut p q (if u8 (ch / 8) = 2 then u8 (1 <<< (ch &&& 7)) else 0) _ _ h2
  have h4 := SamePins_ShiftOut p q (if u8 (ch / 8) = 3 then u8 (1 <<< (ch &&& 7)) else 0) _ _ h3
  have h5 := SamePins_ShiftOut p q (if u8 (ch / 8) = 4 then u8 (1 <<< (ch &&& 7)) else 0) _ _ h4
  have h6 := SamePins_ShiftOut p q (cnot (1 <<< (ShiftOut (if u8 (ch / 8) = 4 then u8 (1 <<< (ch &&& 7)) else 0)
    (ShiftOut (if u8 (ch / 8) = 3 then u8 (1 <<< (ch &&& 7)) else 0)
    (ShiftOut (if u8 (ch / 8) = 2 then u8 (1 <<< (ch &&& 7)) else 0)
    (ShiftOut (if u8 (ch / 8) = 1 then u8 (1 <<< (ch &&& 7)) else 0)
    (ShiftOut (if u8 (ch / 8) = 0 then u8 (1 <<< (ch &&& 7)) else 0) s))))).disp)) _ _ h5
  unfold ISR_shift
  dsimp only
  rw [← h5.2.2.1]
  exact h6

/-- The latch pulse keeps the agreement. -/
theorem SamePins_ISR_latch (p q : List Ev) (s t : State) (h : SamePins p q s t) :
    SamePins p q (ISR_latch s) (ISR_latch t) := by
  have h1 := SamePins_setLATA p q _ _ (s.LATA ||| SHIFT_LATCH_a) h
  have h2 := SamePins_setLATA p q _ _
    ((setLATA (s.LATA ||| SHIFT_LATCH_a) s).LATA &&& cnot SHIFT_LATCH_a) h1
  unfold ISR_latch
  dsimp only
  rw [← h.1, ← h1.1]
  exact h2

/-! ## Theorems -/

/-- C1: for every argument `v` (its low 8 bits are the byte passed) and every
state, `ShiftOut v` appends its events to the trace, and the `LATC` stores it
makes contain exactly 8 clock pulses (a store with bit 5 set followed by a
store with bit 5 clear); at the i-th of them (i = 0..7) the data line, bit 4,
equals bit i of `v`, least significant bit first; on return the clock line
(bit 5 of `LATC`) is low.  When the clock line is low at entry, as it is
after `main` and after every call of `ShiftOut`, each of the 8 pulses starts
with a rising edge of the line, and the data line at the i-th rising edge
equals bit i of `v`. -/
theorem ShiftOut_clock_pulses (v : Nat) (s : State) :
    (ShiftOut v s).trace = s.trace ++ emitted s (ShiftOut v s) ∧
    (clockPulses (latcWrites (emitted s (ShiftOut v s)))).length = 8 ∧
    clockPulses (latcWrites (emitted s (ShiftOut v s))) =
      (List.range 8).map (fun i => v.testBit i) ∧
    (ShiftOut v s).LATC.testBit 5 = false ∧
    (s.LATC.testBit 5 = false →
      clockRises (s.LATC :: latcWrites (emitted s (ShiftOut v s))) =
        (List.range 8).map (fun i => v.testBit i)) := by
  obtain ⟨ws, hs, _, _, hp, hlast, hrise⟩ := ShiftOut_spec v s
  have he : emitted s (ShiftOut v s) = Ev.call (u8 v) :: ws.map Ev.latc :=
    emitted_append s _ _ (by rw [hs])
  have hw : latcWrites (emitted s (ShiftOut v s)) = ws := by
    rw [he]; simp [latcWrites, latcWrites_map_latc]
  refine ⟨?_, ?_, ?_, ?_, ?_⟩
  · rw [he, hs]
  · rw [hw, hp]; simp
  · rw [hw, hp]
  · rw [hs]; exact hlast
  · rw [hw]; exact hrise

/-- An instance of the last part of C1: the byte 0xA5 from the power-on state. -/
theorem ShiftOut_clock_pulses_witness :
    (powerOn 0 0).LATC.testBit 5 = false ∧
    clockRises ((powerOn 0 0).LATC ::
        latcWrites (emitted (powerOn 0 0) (ShiftOut 0xA5 (powerOn 0 0)))) =
      (List.range 8).map (fun i => (0xA5 : Nat).testBit i) :=
  ⟨by decide, (ShiftOut_clock_pulses 0xA5 (powerOn 0 0)).2.2.2.2 (by decide)⟩

/-- C2: with the character code as a parameter of the step, for every code
`c` in 0..39 and every state the step appends its events to the trace, and
the first five bytes it passes to `ShiftOut` are, for k = 0..4 in that order, `1 << (c & 7)` when `k = c / 8`
and 0 otherwise; among the 40 bits of these bytes exactly one is set, in
byte `c / 8` at bit position `c % 8`. -/
theorem ISR_character_select (c : Nat) (hc : c ≤ 39) (s : State) :
    (ISR_ch c s).trace = s.trace ++ emitted s (ISR_ch c s) ∧
    (calls (emitted s (ISR_ch c s))).take 5 =
      (List.range 5).map (fun k => if k = c / 8 then 1 <<< (c &&& 7) else 0) ∧
    ∀ k < 5, ∀ j < 8,
      ((((calls (emitted s (ISR_ch c s))).take 5).getD k 0).testBit j = true ↔
        (k = c / 8 ∧ j = c % 8)) := by
  obtain ⟨es, a1, a2, ht, hcalls, -⟩ := ISR_ch_trace c s
  have he := emitted_append s _ _ ht
  have h5 : (calls (emitted s (ISR_ch c s))).take 5 = (selBytes c).map u8 := by
    rw [he, calls_latch, hcalls]
    simp [selBytes]
  rw [h5]
  exact ⟨by rw [he, ht], selBytes_eq c hc, selBytes_one_hot c hc⟩

/-- An instance of C2: the code 39 from the power-on state. -/
theorem ISR_character_select_witness :
    39 ≤ 39 ∧
    ((ISR_ch 39 (powerOn 0 0)).trace =
      (powerOn 0 0).trace ++ emitted (powerOn 0 0) (ISR_ch 39 (powerOn 0 0)) ∧
    (calls (emitted (powerOn 0 0) (ISR_ch 39 (powerOn 0 0)))).take 5 =
      (List.range 5).map (fun k => if k = 39 / 8 then 1 <<< (39 &&& 7) else 0) ∧
    ∀ k < 5, ∀ j < 8,
      ((((calls (emitted (powerOn 0 0) (ISR_ch 39 (powerOn 0 0)))).take 5).getD k 0).testBit j
          = true ↔ (k = 39 / 8 ∧ j = 39 % 8))) :=
  ⟨by decide, ISR_character_select 39 (by decide) (powerOn 0 0)⟩

/-- C3: for every digit index `d` in 0..7, a step taken with `disp = d`
appends its events to the trace and passes six bytes to `ShiftOut`, and the sixth is the 8-bit value of
`~(1 << d)`, that is `255 - 2 ^ d`: all bits 1 except exactly one clear bit,
at position `d`. -/
theorem ISR_digit_select (d : Nat) (hd : d ≤ 7) (s : State) (hs : s.disp = d) :
    (ISR s).trace = s.trace ++ emitted s (ISR s) ∧
    (calls (emitted s (ISR s))).length = 6 ∧
    (calls (emitted s (ISR s))).getD 5 0 = 255 - 2 ^ d ∧
    ∀ j < 8, (((calls (emitted s (ISR s))).getD 5 0).testBit j = false ↔ j = d) := by
  have h6 : (calls (emitted s (ISR s))).getD 5 0 = 255 - 2 ^ d := by
    unfold ISR
    rw [calls_step, hs, (digit_byte d hd).1]
    simp [selBytes]
  refine ⟨?_, ?_, h6, ?_⟩
  · obtain ⟨es, a1, a2, ht, -⟩ := ISR_ch_trace 39 s
    unfold ISR
    rw [emitted_append s _ _ ht, ht]
  · unfold ISR
    rw [calls_step]
    simp [selBytes]
  · rw [h6]
    exact (digit_byte d hd).2

/-- An instance of C3: digit index 3. -/
theorem ISR_digit_select_witness :
    3 ≤ 7 ∧ ({ powerOn 0 0 with disp := 3 } : State).disp = 3 ∧
    ((ISR { powerOn 0 0 with disp := 3 }).trace =
      ({ powerOn 0 0 with disp := 3 } : State).trace ++
        emitted { powerOn 0 0 with disp := 3 } (ISR { powerOn 0 0 with disp := 3 }) ∧
    (calls (emitted { powerOn 0 0 with disp := 3 }
        (ISR { powerOn 0 0 with disp := 3 }))).length = 6 ∧
    (calls (emitted { powerOn 0 0 with disp := 3 }
        (ISR { powerOn 0 0 with disp := 3 }))).getD 5 0 = 255 - 2 ^ 3 ∧
    ∀ j < 8, (((calls (emitted { powerOn 0 0 with disp := 3 }
        (ISR { powerOn 0 0 with disp := 3 }))).getD 5 0).testBit j = false ↔ j = 3)) :=
  ⟨by decide, rfl, ISR_digit_select 3 (by decide) { powerOn 0 0 with disp := 3 } rfl⟩

/-- C4: for every state, the events of one step are a block `pre` followed
by exactly two stores to `LATA`.  The block `pre` holds no store to `LATA`,
six calls of `ShiftOut` and 48 clock pulses, and the clock line is low after
it; the two stores that follow raise the latch line (bit 4 of `LATA`) and
lower it again, nothing follows them, and the latch line is low when the
step returns. -/
theorem ISR_shift_then_latch (s : State) :
    ∃ (pre : List Ev) (a1 a2 : Nat),
      (ISR s).trace = s.trace ++ emitted s (ISR s) ∧
      emitted s (ISR s) = pre ++ [Ev.lata a1, Ev.lata a2] ∧
      (∀ w, Ev.lata w ∉ pre) ∧
      (calls pre).length = 6 ∧
      (clockPulses (latcWrites pre)).length = 48 ∧
      (ISR s).LATC.testBit 5 = false ∧
      a1.testBit 4 = true ∧ a2.testBit 4 = false ∧
      (ISR s).LATA = a2 ∧ (ISR s).LATA.testBit 4 = false := by
  obtain ⟨es, a1, a2, ht, hcalls, hna, hp, hc5, ha, h1, h2⟩ := ISR_ch_trace 39 s
  have he := emitted_append s _ _ ht
  refine ⟨es, a1, a2, ?_, he, hna, ?_, ?_, hc5, h1, h2, ha, ?_⟩
  · unfold ISR; rw [he, ht]
  · rw [hcalls]; simp [selBytes]
  · rw [hp]; simp [selBytes, lsbFirst]
  · unfold ISR; rw [ha]; exact h2

/-- C5: from power-on, whatever `LATA` and `LATC` held at reset and whatever
the inputs of the steps, the first 8 interrupt steps (character code 39)
show, for d = 0..7 in that order, the bytes 0x00, 0x00, 0x00, 0x00, 0x80 and
the digit-select byte `255 - 2 ^ d` (the 8-bit `~(1 << d)`), then the latch
line raised and lowered: exactly 8 latch pulses. -/
theorem first_eight_steps (lata latc : Nat) (i0 i1 i2 i3 i4 i5 i6 i7 : Input) :
    view (run [i0, i1, i2, i3, i4, i5, i6, i7] (powerOn lata latc)).trace =
      (List.range 8).flatMap (fun d =>
        [Sig.byte 0x00, Sig.byte 0x00, Sig.byte 0x00, Sig.byte 0x00, Sig.byte 0x80,
          Sig.byte (255 - 2 ^ d), Sig.latch true, Sig.latch false]) ∧
    (view (run [i0, i1, i2, i3, i4, i5, i6, i7] (powerOn lata latc)).trace).count
      (Sig.latch true) = 8 := by
  have h := run_view [i0, i1, i2, i3, i4, i5, i6, i7] (powerOn lata latc) (by simp [powerOn])
  have e : view (run [i0, i1, i2, i3, i4, i5, i6, i7] (powerOn lata latc)).trace =
      (List.range 8).flatMap (fun d =>
        [Sig.byte 0x00, Sig.byte 0x00, Sig.byte 0x00, Sig.byte 0x00, Sig.byte 0x80,
          Sig.byte (255 - 2 ^ d), Sig.latch true, Sig.latch false]) := by
    rw [h]
    simp [powerOn, view]
  refine ⟨e, ?_⟩
  rw [e]
  decide

/-- C6 (what the code does): from power-on the digit index after 0, 1, ..., 9
steps is 0, 1, 2, 3, 4, 5, 6, 7, 8, 0: it reaches 8 after the 8th step and
returns to 0 only after the 9th, so a scan cycle of the code is 9 steps. -/
theorem disp_nine_step_cycle (lata latc : Nat) (i0 i1 i2 i3 i4 i5 i6 i7 i8 : Input) :
    (List.range 10).map (fun k =>
        (run ([i0, i1, i2, i3, i4, i5, i6, i7, i8].take k) (powerOn lata latc)).disp) =
      [0, 1, 2, 3, 4, 5, 6, 7, 8, 0] := by
  have h := fun is => run_disp is (powerOn lata latc) (by simp [powerOn])
  simp [List.range_succ, h, powerOn_disp]

/-- C7 (what the code does): the state reached from power-on by 8 interrupt
steps, whatever their inputs, has `disp = 8`, outside 0..7. -/
theorem disp_reaches_eight (lata latc : Nat) (i0 i1 i2 i3 i4 i5 i6 i7 : Input) :
    (run [i0, i1, i2, i3, i4, i5, i6, i7] (powerOn lata latc)).disp = 8 ∧
    ¬ (run [i0, i1, i2, i3, i4, i5, i6, i7] (powerOn lata latc)).disp ≤ 7 := by
  have h := run_disp [i0, i1, i2, i3, i4, i5, i6, i7] (powerOn lata latc) (by simp [powerOn])
  rw [h]
  simp [powerOn_disp]

/-- C8 (what the code does): from power-on, with the timer flag set at every
step, after n steps `tick = (n / 51) mod 256` and `localTick = n mod 51`; in
particular `tick` is still 0 after 50 steps and becomes 1 at the 51st. -/
theorem tick_every_51_steps (lata latc : Nat) (ps : List Nat) :
    (run (ps.map (fun p => (⟨p, true⟩ : Input))) (powerOn lata latc)).tick =
      (ps.length / 51) % 256 ∧
    (run (ps.map (fun p => (⟨p, true⟩ : Input))) (powerOn lata latc)).localTick =
      ps.length % 51 ∧
    (run ((List.replicate 50 0xFF).map (fun p => (⟨p, true⟩ : Input))) (powerOn lata latc)).tick
      = 0 ∧
    (run ((List.replicate 51 0xFF).map (fun p => (⟨p, true⟩ : Input))) (powerOn lata latc)).tick
      = 1 := by
  have h := fun qs => run_tick qs (powerOn lata latc) (by simp [powerOn]) (by simp [powerOn])
  refine ⟨?_, ?_, ?_, ?_⟩
  · rw [(h ps).2]; simp [powerOn]
  · rw [(h ps).1]; simp [powerOn]
  · rw [(h _).2]; simp [powerOn]
  · rw [(h _).2]; simp [powerOn]

/-- C9 (what the code does): from power-on, `pattern` keeps its initial value
0x18 through the first 8 steps and is written at the 9th step, with one plus
the number of pressed samples of the nine steps, modulo 256. -/
theorem pattern_written_on_ninth_step (lata latc : Nat) (i0 i1 i2 i3 i4 i5 i6 i7 i8 : Input) :
    (∀ k ≤ 8, (run ([i0, i1, i2, i3, i4, i5, i6, i7, i8].take k) (powerOn lata latc)).pattern
      = 0x18) ∧
    (run [i0, i1, i2, i3, i4, i5, i6, i7, i8] (powerOn lata latc)).pattern =
      (1 + presses [i0, i1, i2, i3, i4, i5, i6, i7, i8]) % 256 := by
  constructor
  · intro k hk
    rw [run_pattern _ _ (by simp [powerOn_disp]; omega)]
    rfl
  · have hd := run_disp [i0, i1, i2, i3, i4, i5, i6, i7] (powerOn lata latc) (by simp [powerOn])
    have hd8 : (run [i0, i1, i2, i3, i4, i5, i6, i7] (powerOn lata latc)).disp = 8 := by
      rw [hd]; simp [powerOn_disp]
    have hc := interrupt_control i8 (run [i0, i1, i2, i3, i4, i5, i6, i7] (powerOn lata latc))
    have hp := hc.2.2.1
    rw [if_pos hd8, ← hc.1] at hp
    have hl := run_lastButton [i0, i1, i2, i3, i4, i5, i6, i7, i8] (powerOn lata latc)
      (by simp [powerOn])
    show (interrupt i8 (run [i0, i1, i2, i3, i4, i5, i6, i7] (powerOn lata latc))).pattern = _
    rw [hp]
    exact hl

/-- C10, counterexample: after 8 steps from power-on with the button pressed
`disp = 8`; the next step, button pressed again, wraps `disp` to 0, publishes
`pattern = 10` and leaves `lastButton = 10`, not the initial value 0x01. -/
theorem lastButton_kept_at_wrap :
    (run (List.replicate 8 (⟨0, true⟩ : Input)) (powerOn 0 0)).disp = 8 ∧
    (interrupt ⟨0, true⟩ (run (List.replicate 8 (⟨0, true⟩ : Input)) (powerOn 0 0))).disp = 0 ∧
    (interrupt ⟨0, true⟩ (run (List.replicate 8 (⟨0, true⟩ : Input)) (powerOn 0 0))).pattern
      = 10 ∧
    (interrupt ⟨0, true⟩ (run (List.replicate 8 (⟨0, true⟩ : Input)) (powerOn 0 0))).lastButton
      = 10 ∧
    (interrupt ⟨0, true⟩ (run (List.replicate 8 (⟨0, true⟩ : Input)) (powerOn 0 0))).lastButton
      ≠ 0x01 := by
  have hd : (run (List.replicate 8 (⟨0, true⟩ : Input)) (powerOn 0 0)).disp = 8 := by
    rw [run_disp _ _ (by simp [powerOn])]; rfl
  have hl : (run (List.replicate 8 (⟨0, true⟩ : Input)) (powerOn 0 0)).lastButton = 9 := by
    rw [run_lastButton _ _ (by simp [powerOn])]; rfl
  have hc := interrupt_control ⟨0, true⟩ (run (List.replicate 8 (⟨0, true⟩ : Input)) (powerOn 0 0))
  have hb : u8 (⟨0, true⟩ : Input).portc &&& BUTTON_c = 0 := by decide
  rw [hd, hl, if_pos hb] at hc
  refine ⟨hd, ?_, ?_, ?_, ?_⟩
  · rw [hc.2.1]; rfl
  · rw [hc.2.2.1]; rfl
  · rw [hc.1]; rfl
  · rw [hc.1]; decide

/-- C10, amended: for every state with `disp = 8`, the step wraps the digit
index to 0, publishes the accumulator to `pattern` and does not reset it:
after the step `lastButton` is its value at entry, incremented modulo 256
when the button line (bit 3 of `PORTC`) read 0, and `pattern` equals it. -/
theorem lastButton_published_not_reset (s : State) (h : s.disp = 8) :
    (ISR s).disp = 0 ∧
    (ISR s).pattern = (ISR s).lastButton ∧
    (ISR s).lastButton =
      (if s.PORTC &&& BUTTON_c = 0 then (s.lastButton + 1) % 256 else s.lastButton) := by
  obtain ⟨h1, h2, h3, -⟩ := ISR_ch_control 39 s
  rw [if_pos h] at h2 h3
  exact ⟨h2, h3.trans h1.symm, h1⟩

/-- An instance of the amended C10: `disp = 8`, accumulator 5, button pressed. -/
theorem lastButton_published_not_reset_witness :
    ({ powerOn 0 0 with disp := 8, lastButton := 5, PORTC := 0 } : State).disp = 8 ∧
    ((ISR { powerOn 0 0 with disp := 8, lastButton := 5, PORTC := 0 }).disp = 0 ∧
    (ISR { powerOn 0 0 with disp := 8, lastButton := 5, PORTC := 0 }).pattern =
      (ISR { powerOn 0 0 with disp := 8, lastButton := 5, PORTC := 0 }).lastButton ∧
    (ISR { powerOn 0 0 with disp := 8, lastButton := 5, PORTC := 0 }).lastButton =
      (if ({ powerOn 0 0 with disp := 8, lastButton := 5, PORTC := 0 } : State).PORTC
            &&& BUTTON_c = 0
        then (({ powerOn 0 0 with disp := 8, lastButton := 5, PORTC := 0 } : State).lastButton
            + 1) % 256
        else ({ powerOn 0 0 with disp := 8, lastButton := 5, PORTC := 0 } : State).lastButton)) :=
  ⟨rfl, lastButton_published_not_reset
    { powerOn 0 0 with disp := 8, lastButton := 5, PORTC := 0 } rfl⟩

/-- C11: for every state, one step leaves `pattern` equal to the accumulator
`lastButton` as it stands after the button sample of this step when the step
is the one that wraps the digit index (the branch of line 258, taken at
`disp = 8`), and leaves `pattern` unchanged otherwise.  At `disp = 8` the
index becomes 0, below 8 it becomes `disp + 1`, so that among the indices
0..8 the step that returns the index to 0 is exactly the one at `disp = 8`. -/
theorem ISR_pattern_update (s : State) :
    (ISR s).lastButton =
      (if s.PORTC.testBit 3 = false then (s.lastButton + 1) % 256 else s.lastButton) ∧
    (ISR s).pattern = (if s.disp = 8 then (ISR s).lastButton else s.pattern) ∧
    (s.disp = 8 → (ISR s).disp = 0) ∧
    (s.disp < 8 → (ISR s).disp = s.disp + 1) ∧
    (s.disp ≤ 8 → ((ISR s).disp = 0 ↔ s.disp = 8)) := by
  obtain ⟨h1, h2, h3, -⟩ := ISR_ch_control 39 s
  have hb : (ISR s).lastButton =
      (if s.PORTC.testBit 3 = false then (s.lastButton + 1) % 256 else s.lastButton) := by
    unfold ISR
    rw [h1]
    by_cases hp : s.PORTC &&& BUTTON_c = 0
    · rw [if_pos hp, if_pos ((button_test _).1 hp)]; rfl
    · rw [if_neg hp, if_neg (fun h => hp ((button_test _).2 h))]
  refine ⟨hb, ?_, ?_, ?_, ?_⟩
  · unfold ISR
    rw [h3, h1]
  · intro h; unfold ISR; rw [h2, if_pos h]
  · intro h; unfold ISR; rw [h2, if_neg (by omega)]; unfold u8; omega
  · intro h; unfold ISR; rw [h2]
    split
    · simp [*]
    · unfold u8; omega

/-- An instance of C11: the wrap step from `disp = 8`. -/
theorem ISR_pattern_update_witness :
    ({ powerOn 0 0 with disp := 8, lastButton := 5, PORTC := 0 } : State).disp = 8 ∧
    (ISR { powerOn 0 0 with disp := 8, lastButton := 5, PORTC := 0 }).disp = 0 :=
  ⟨rfl, (ISR_pattern_update { powerOn 0 0 with disp := 8, lastButton := 5, PORTC := 0 }).2.2.1 rfl⟩

/-- C12: for every state, one step changes `lastButton` to
`(lastButton + 1) mod 256` when bit 3 of `PORTC` reads 0 and leaves it
unchanged when the bit reads 1; the result is the same whatever the digit
index `disp`. -/
theorem ISR_button_sample (s : State) (d : Nat) :
    (ISR s).lastButton =
      (if s.PORTC.testBit 3 = false then (s.lastButton + 1) % 256 else s.lastButton) ∧
    (ISR { s with disp := d }).lastButton = (ISR s).lastButton := by
  obtain ⟨h1, -⟩ := ISR_ch_control 39 s
  obtain ⟨g1, -⟩ := ISR_ch_control 39 { s with disp := d }
  constructor
  · unfold ISR
    rw [h1]
    by_cases hp : s.PORTC &&& BUTTON_c = 0
    · rw [if_pos hp, if_pos ((button_test _).1 hp)]; rfl
    · rw [if_neg hp, if_neg (fun h => hp ((button_test _).2 h))]
  · unfold ISR
    rw [h1, g1]

/-- C13: for every argument and every state whose `LATC` is an 8-bit value,
`ShiftOut` leaves `LATA` unchanged and stores nothing to it, and every bit
of `LATC` other than the data bit (bit 4) and the clock bit (bit 5) is the
same on return as at entry. -/
theorem ShiftOut_frame (v : Nat) (s : State) (hC : s.LATC < 256) :
    (ShiftOut v s).LATA = s.LATA ∧
    (∀ w, Ev.lata w ∉ emitted s (ShiftOut v s)) ∧
    (∀ i, i ≠ 4 → i ≠ 5 → (ShiftOut v s).LATC.testBit i = s.LATC.testBit i) ∧
    (ShiftOut v s).LATC &&& 0xCF = s.LATC &&& 0xCF := by
  obtain ⟨l1, l2, l3⟩ := ShiftOutLoop_bits 8 (u8 v) { s with trace := s.trace ++ [Ev.call (u8 v)] }
  obtain ⟨ws, hs, -⟩ := ShiftOut_spec v s
  have hbits : ∀ i, i ≠ 4 → i ≠ 5 → (ShiftOut v s).LATC.testBit i = s.LATC.testBit i := by
    intro i h4 h5
    by_cases hi : i < 8
    · exact l3 i hi h4 h5
    · have h1 : (ShiftOut v s).LATC < 2 ^ i :=
        lt_of_lt_of_le (l2 (by decide)) (by
          calc 256 = 2 ^ 8 := rfl
            _ ≤ 2 ^ i := Nat.pow_le_pow_right (by decide) (by omega))
      have h2 : s.LATC < 2 ^ i :=
        lt_of_lt_of_le hC (by
          calc 256 = 2 ^ 8 := rfl
            _ ≤ 2 ^ i := Nat.pow_le_pow_right (by decide) (by omega))
      rw [Nat.testBit_lt_two_pow h1, Nat.testBit_lt_two_pow h2]
  refine ⟨l1, ?_, hbits, ?_⟩
  · intro w hw
    rw [emitted_append s _ _ (by rw [hs])] at hw
    simp at hw
  · apply Nat.eq_of_testBit_eq
    intro i
    rw [Nat.testBit_and, Nat.testBit_and]
    by_cases h4 : i = 4
    · subst h4
      have h : Nat.testBit 0xCF 4 = false := by decide
      rw [h, Bool.and_false, Bool.and_false]
    · by_cases h5 : i = 5
      · subst h5
        have h : Nat.testBit 0xCF 5 = false := by decide
        rw [h, Bool.and_false, Bool.and_false]
      · rw [hbits i h4 h5]

/-- An instance of C13: the byte 0xA5 from the power-on state. -/
theorem ShiftOut_frame_witness :
    (powerOn 0xFF 0xFF).LATC < 256 ∧
    (ShiftOut 0xA5 (powerOn 0xFF 0xFF)).LATC &&& 0xCF = (powerOn 0xFF 0xFF).LATC &&& 0xCF :=
  ⟨by decide, (ShiftOut_frame 0xA5 (powerOn 0xFF 0xFF) (by decide)).2.2.2⟩

/-- C14: the character map has 40 rows, for the codes 0..39; every row is
well formed over the 14 segments a..n, so every mask is below `2 ^ 14`; the
mask of code 10 (space) is zero; and no two distinct codes have the same
mask. -/
theorem characterMap_one_to_one :
    characterMap.length = 40 ∧
    (∀ c < 40, rowOk segmentNames (characterMap.getD c "").toList = true) ∧
    (∀ c < 40, segMask c < 2 ^ 14) ∧
    segMask 10 = 0 ∧
    (∀ c1 < 40, ∀ c2 < 40, segMask c1 = segMask c2 → c1 = c2) := by
  refine ⟨rfl, ?_, ?_, ?_, ?_⟩
  · decide
  · decide
  · decide
  · decide

/-- C15: after every step `T0IF` is clear; and when it is clear on entry the
step leaves `localTick` and `tick` unchanged and still performs the full
scan: six calls of `ShiftOut` with 48 clock pulses, then the latch pulse, the
button sample and the advance of the digit index. -/
theorem ISR_without_timer_flag (s : State) :
    (ISR s).T0IF = false ∧
    (s.T0IF = false →
      (ISR s).localTick = s.localTick ∧ (ISR s).tick = s.tick ∧
      (∃ (pre : List Ev) (a1 a2 : Nat),
        emitted s (ISR s) = pre ++ [Ev.lata a1, Ev.lata a2] ∧
        (∀ w, Ev.lata w ∉ pre) ∧ (calls pre).length = 6 ∧
        (clockPulses (latcWrites pre)).length = 48 ∧
        a1.testBit 4 = true ∧ a2.testBit 4 = false) ∧
      (ISR s).lastButton =
        (if s.PORTC &&& BUTTON_c = 0 then (s.lastButton + 1) % 256 else s.lastButton) ∧
      (ISR s).disp = (if s.disp = 8 then 0 else (s.disp + 1) % 256)) := by
  obtain ⟨h1, h2, -, h4, h5, h6⟩ := ISR_ch_control 39 s
  refine ⟨h4, fun h => ⟨?_, ?_, ?_, h1, h2⟩⟩
  · unfold ISR; rw [h5, h]; simp
  · unfold ISR; rw [h6, h]; simp
  · obtain ⟨es, a1, a2, ht, hcalls, hna, hp, -, -, g1, g2⟩ := ISR_ch_trace 39 s
    refine ⟨es, a1, a2, emitted_append s _ _ ht, hna, ?_, ?_, g1, g2⟩
    · rw [hcalls]; simp [selBytes]
    · rw [hp]; simp [selBytes, lsbFirst]

/-- An instance of C15: a step from the power-on state, where `T0IF` is clear. -/
theorem ISR_without_timer_flag_witness :
    (powerOn 0 0).T0IF = false ∧
    ((ISR (powerOn 0 0)).localTick = (powerOn 0 0).localTick ∧
      (ISR (powerOn 0 0)).tick = (powerOn 0 0).tick) :=
  ⟨rfl, ((ISR_without_timer_flag (powerOn 0 0)).2 rfl).1,
    ((ISR_without_timer_flag (powerOn 0 0)).2 rfl).2.1⟩

/-- C16: in every state reached from power-on by interrupt steps with any
inputs, `disp ≤ 8` and `localTick ≤ 50`. -/
theorem reachable_bounds (lata latc : Nat) (is : List Input) :
    (run is (powerOn lata latc)).disp ≤ 8 ∧ (run is (powerOn lata latc)).localTick ≤ 50 := by
  constructor
  · rw [run_disp is _ (by simp [powerOn])]
    omega
  · exact run_localTick_le is _ (by simp [powerOn])

/-- C17: a step taken with `disp = 8` passes the digit-select byte 0xFF and
sets `disp` to 0; from power-on the index after n steps is `n mod 9`, and the
digit-select byte of the next step is 0xFF exactly when `n mod 9 = 8`, and
`255 - 2 ^ (n mod 9)`, with one clear bit, otherwise. -/
theorem disp_period_nine (s : State) (lata latc : Nat) (is : List Input) (i : Input) :
    (s.disp = 8 → (calls (emitted s (ISR s))).getD 5 0 = 0xFF ∧ (ISR s).disp = 0) ∧
    (run is (powerOn lata latc)).disp = is.length % 9 ∧
    (calls (emitted (run is (powerOn lata latc))
        (interrupt i (run is (powerOn lata latc))))).getD 5 0 =
      (if is.length % 9 = 8 then 0xFF else 255 - 2 ^ (is.length % 9)) ∧
    ((calls (emitted (run is (powerOn lata latc))
        (interrupt i (run is (powerOn lata latc))))).getD 5 0 = 0xFF ↔ is.length % 9 = 8) := by
  have hd : (run is (powerOn lata latc)).disp = is.length % 9 := by
    rw [run_disp is _ (by simp [powerOn]), powerOn_disp, Nat.zero_add]
  have hb : (calls (emitted (run is (powerOn lata latc))
        (interrupt i (run is (powerOn lata latc))))).getD 5 0 =
      (if is.length % 9 = 8 then 0xFF else 255 - 2 ^ (is.length % 9)) := by
    rw [calls_interrupt, hd]
    have hs : ((selBytes 39).map u8).length = 5 := rfl
    rw [List.getD_append_right _ _ _ _ (by rw [hs])]
    simp only [hs, Nat.sub_self, List.getD_cons_zero]
    split
    · rename_i h8; rw [h8]; exact digit_byte_eight
    · exact (digit_byte _ (by omega)).1
  refine ⟨?_, hd, hb, ?_⟩
  · intro h
    constructor
    · unfold ISR
      rw [calls_step, h]
      have hs : ((selBytes 39).map u8).length = 5 := rfl
      rw [List.getD_append_right _ _ _ _ (by rw [hs])]
      simp only [hs, Nat.sub_self, List.getD_cons_zero]
      exact digit_byte_eight
    · have := (ISR_ch_control 39 s).2.1
      unfold ISR
      rw [this, if_pos h]
  · rw [hb]
    constructor
    · intro h
      by_contra h8
      rw [if_neg h8] at h
      have hpos : 0 < 2 ^ (is.length % 9) := Nat.pow_pos (by decide)
      omega
    · intro h; rw [if_pos h]

/-- An instance of C17: a step from a state with `disp = 8`. -/
theorem disp_period_nine_witness :
    ({ powerOn 0 0 with disp := 8, lastButton := 5, PORTC := 0 } : State).disp = 8 ∧
    ((calls (emitted { powerOn 0 0 with disp := 8, lastButton := 5, PORTC := 0 }
        (ISR { powerOn 0 0 with disp := 8, lastButton := 5, PORTC := 0 }))).getD 5 0 = 0xFF ∧
      (ISR { powerOn 0 0 with disp := 8, lastButton := 5, PORTC := 0 }).disp = 0) :=
  ⟨rfl, (disp_period_nine { powerOn 0 0 with disp := 8, lastButton := 5, PORTC := 0 } 0 0 [] ⟨0, true⟩).1 rfl⟩

/-- C18: after any run from power-on, `lastButton` is one plus the number of
steps of the run at which the button line read 0, modulo 256; and the value
a wrap step publishes to `pattern` is that count over all the steps so far. -/
theorem lastButton_lifetime_count (lata latc : Nat) (is : List Input) (i : Input) :
    (run is (powerOn lata latc)).lastButton = (1 + presses is) % 256 ∧
    (is.length % 9 = 8 →
      (run (is ++ [i]) (powerOn lata latc)).pattern = (1 + presses (is ++ [i])) % 256) := by
  have h := fun js => run_lastButton js (powerOn lata latc) (by simp [powerOn])
  refine ⟨h is, fun h8 => ?_⟩
  have hd : (run is (powerOn lata latc)).disp = 8 := by
    rw [run_disp is _ (by simp [powerOn]), powerOn_disp, Nat.zero_add, h8]
  have hc := interrupt_control i (run is (powerOn lata latc))
  have hp := hc.2.2.1
  rw [if_pos hd, ← hc.1] at hp
  rw [run_append]
  show (interrupt i (run is (powerOn lata latc))).pattern = _
  rw [hp]
  have := h (is ++ [i])
  rw [run_append] at this
  exact this

/-- An instance of C18: the ninth step, the button pressed throughout. -/
theorem lastButton_lifetime_count_witness :
    (List.replicate 8 (⟨0, true⟩ : Input)).length % 9 = 8 ∧
    (run (List.replicate 8 (⟨0, true⟩ : Input) ++ [⟨0, true⟩]) (powerOn 0 0)).pattern =
      (1 + presses (List.replicate 8 (⟨0, true⟩ : Input) ++ [⟨0, true⟩])) % 256 :=
  ⟨by decide,
    (lastButton_lifetime_count 0 0 (List.replicate 8 (⟨0, true⟩ : Input)) ⟨0, true⟩).2
      (by decide)⟩

/-- C19: for any two states that agree on `disp`, `LATA` and `LATC`, one step
appends the same events to the trace of each, whatever the values of `PORTC`,
`lastButton`, `pattern`, `tick`, `localTick` and `T0IF`. -/
theorem ISR_trace_depends_on_pins (s t : State)
    (hd : s.disp = t.disp) (ha : s.LATA = t.LATA) (hc : s.LATC = t.LATC) :
    (ISR s).trace = s.trace ++ emitted s (ISR s) ∧
    (ISR t).trace = t.trace ++ emitted t (ISR t) ∧
    emitted s (ISR s) = emitted t (ISR t) := by
  obtain ⟨s1, s2, s3, -, s5, -⟩ := ISR_timer_frame s
  obtain ⟨t1, t2, t3, -, t5, -⟩ := ISR_timer_frame t
  have h0 : SamePins s.trace t.trace (ISR_timer s) (ISR_timer t) :=
    ⟨by rw [s2, t2, ha], by rw [s3, t3, hc], by rw [s5, t5, hd], [], by simp [s1], by simp [t1]⟩
  obtain ⟨-, -, -, es, e1, e2⟩ := SamePins_ISR_latch _ _ _ _ (SamePins_ISR_shift _ _ 39 _ _ h0)
  have hs : (ISR s).trace = s.trace ++ es := by
    unfold ISR ISR_ch
    rw [(ISR_button_frame _).1, e1]
  have ht : (ISR t).trace = t.trace ++ es := by
    unfold ISR ISR_ch
    rw [(ISR_button_frame _).1, e2]
  rw [emitted_append s _ _ hs, emitted_append t _ _ ht]
  exact ⟨hs, ht, rfl⟩

/-- An instance of C19: the power-on state and a state with other inputs and
counters. -/
theorem ISR_trace_depends_on_pins_witness :
    (powerOn 0 0).disp = ({ powerOn 0 0 with PORTC := 0, T0IF := true, tick := 9, pattern := 3, lastButton := 7, localTick := 50 } : State).disp ∧
    (powerOn 0 0).LATA = ({ powerOn 0 0 with PORTC := 0, T0IF := true, tick := 9, pattern := 3, lastButton := 7, localTick := 50 } : State).LATA ∧
    (powerOn 0 0).LATC = ({ powerOn 0 0 with PORTC := 0, T0IF := true, tick := 9, pattern := 3, lastButton := 7, localTick := 50 } : State).LATC ∧
    emitted (powerOn 0 0) (ISR (powerOn 0 0)) =
      emitted { powerOn 0 0 with PORTC := 0, T0IF := true, tick := 9, pattern := 3, lastButton := 7, localTick := 50 }
        (ISR { powerOn 0 0 with PORTC := 0, T0IF := true, tick := 9, pattern := 3, lastButton := 7, localTick := 50 }) :=
  ⟨rfl, rfl, rfl, (ISR_trace_depends_on_pins (powerOn 0 0)
    { powerOn 0 0 with PORTC := 0, T0IF := true, tick := 9, pattern := 3, lastButton := 7, localTick := 50 } rfl rfl rfl).2.2⟩

end TetraDeca
